import Mathlib

unseal Rat.add Rat.mul Rat.inv Rat.sub

set_option maxRecDepth 400000

/-!
Verification of the planar-graph construction engine (the `Graph` class of
`app.js`).  Coordinates are modelled as exact rationals.  `Math.sqrt` and the
cosine/sine values `Math.cos(k*π/4)` / `Math.sin(k*π/4)` used by the placement
search are supplied through a `Ctx` record of abstract functions, so every
definition stays executable and concrete evaluations can pick exact values.
Comparisons of the shape `distance(p, q) < c` with a constant `c ≥ 0` are
embedded as comparisons of squared distances, which eliminates the square root
without changing the comparison's outcome.
-/

structure Pt where
  x : ℚ
  y : ℚ
deriving DecidableEq, Repr

structure Vertex where
  x : ℚ
  y : ℚ
  visible : Bool
  id : ℕ
deriving DecidableEq, Repr

def Vertex.pt (v : Vertex) : Pt := ⟨v.x, v.y⟩

/-- The mutable graph state (`this.vertices`, `this.edges`, `this.periphery`,
`this.selectedVertices`, `this.segmentVertices`, `this.maxVertexId`).  The
purely visual fields (`hoveredVertex`, `manualMode`, `showIndices`,
`vertexRadius`) are never read or written by the modelled core and are
omitted. -/
structure Graph where
  vertices : List Vertex
  edges : List (ℕ × ℕ)
  periphery : List ℕ
  selectedVertices : List ℕ
  segmentVertices : List ℕ
  maxVertexId : ℕ
deriving DecidableEq, Repr

/-- Abstract numeric context: `sqrt` models `Math.sqrt`, and `cosT k` / `sinT k`
model `Math.cos(k * π/4)` / `Math.sin(k * π/4)` (the placement search only ever
evaluates the trigonometric functions at multiples of 45°, via
`(attempt % 8) * (Math.PI / 4)`). -/
structure Ctx where
  sqrt : ℚ → ℚ
  cosT : ℕ → ℚ
  sinT : ℕ → ℚ

/-- Default used for out-of-range list reads (JS would yield `undefined`; all
verified paths stay in range, see the individual theorems). -/
def defaultVertex : Vertex := ⟨0, 0, false, 0⟩

def lookupV (vs : List Vertex) (i : ℕ) : Vertex := vs.getD i defaultVertex

def originPt : Pt := ⟨0, 0⟩

/-- `ccw(A, B, C)` — the orientation predicate of `app.js` (both the local
function inside `segmentsIntersect` and the `ccw` method): true iff A→B→C
turns strictly counter-clockwise. -/
def ccwB (A B C : Pt) : Bool :=
  (C.y - A.y) * (B.x - A.x) > (B.y - A.y) * (C.x - A.x)

/-- `segmentsIntersect(p1, p2, p3, p4)`. -/
def segmentsIntersectB (p1 p2 p3 p4 : Pt) : Bool :=
  (ccwB p1 p3 p4 != ccwB p2 p3 p4) && (ccwB p1 p2 p3 != ccwB p1 p2 p4)

def distSq (p q : Pt) : ℚ := (p.x - q.x) ^ 2 + (p.y - q.y) ^ 2

/-- `distance(p, q) < c` for a constant `c ≥ 0`, embedded without the square
root as `distSq p q < c²`. -/
def distLt (p q : Pt) (c : ℚ) : Bool := distSq p q < c ^ 2

/-- Squared version of `pointToLineDistance(point, lineStart, lineEnd)`: the
closest point of the segment is computed exactly as in the source; only the
final `Math.sqrt` is dropped (callers compare the result against a constant). -/
def pointToLineDistSq (point lineStart lineEnd : Pt) : ℚ :=
  let A := lineEnd.x - lineStart.x
  let B := lineEnd.y - lineStart.y
  let C := point.x - lineStart.x
  let D := point.y - lineStart.y
  let dot := A * C + B * D
  let lenSq := A * A + B * B
  if lenSq = 0 then distSq point lineStart
  else
    let param := max 0 (min 1 (dot / lenSq))
    distSq point ⟨lineStart.x + param * A, lineStart.y + param * B⟩

/-- `pointInPolygon(point, polygon)` — the ray-casting parity loop.  The JS
loop visits pairs `(i, j)` with `j` the predecessor of `i` cyclically. -/
def pointInPolygon (point : Pt) (polygon : List Pt) : Bool :=
  let n := polygon.length
  (List.range n).foldl
    (fun inside i =>
      let pi := polygon.getD i originPt
      let pj := polygon.getD ((i + n - 1) % n) originPt
      if ((decide (pi.y > point.y)) != (decide (pj.y > point.y)))
          && decide (point.x <
              (pj.x - pi.x) * (point.y - pi.y) / (pj.y - pi.y) + pi.x)
      then !inside else inside)
    false

def calculatePolygonCenter (polygon : List Pt) : Pt :=
  ⟨(polygon.map Pt.x).sum / polygon.length, (polygon.map Pt.y).sum / polygon.length⟩

/-- `expandPolygon(polygon, margin)`. -/
def expandPolygon (ctx : Ctx) (polygon : List Pt) (margin : ℚ) : List Pt :=
  let center := calculatePolygonCenter polygon
  polygon.map fun v =>
    let dx := v.x - center.x
    let dy := v.y - center.y
    let len := ctx.sqrt (dx * dx + dy * dy)
    if len = 0 then v
    else ⟨v.x + dx / len * margin, v.y + dy / len * margin⟩

/-- `normalizeVector(vector)`. -/
def normalizeVector (ctx : Ctx) (v : Pt) : Pt :=
  let len := ctx.sqrt (v.x * v.x + v.y * v.y)
  if len = 0 then ⟨1, 0⟩ else ⟨v.x / len, v.y / len⟩

/-- `calculateCentroid(segmentVertices)` (reads `this.vertices`). -/
def calculateCentroid (vs : List Vertex) (segmentVertices : List ℕ) : Pt :=
  ⟨(segmentVertices.map fun i => (lookupV vs i).x).sum / segmentVertices.length,
   (segmentVertices.map fun i => (lookupV vs i).y).sum / segmentVertices.length⟩

/-- `calculateGraphCenter()` — centroid of the visible vertices. -/
def calculateGraphCenter (vs : List Vertex) : Pt :=
  let visible := vs.filter (·.visible)
  ⟨(visible.map Vertex.x).sum / visible.length,
   (visible.map Vertex.y).sum / visible.length⟩

/-!
Polar-angle ordering used by `getConvexHull`'s sort.  The JS comparator is
`Math.atan2(a.y-s.y, a.x-s.x) - Math.atan2(b.y-s.y, b.x-s.x)`; we embed the
exact mathematical order of `atan2` values in `(-π, π]` as a lexicographic key
`(sector, -dx/dy)`: points strictly below the anchor (`dy < 0`, angles in
`(-π, 0)`) come first, then the ray `dy = 0, dx ≥ 0` (angle `0`, which also
covers `atan2(0,0) = 0`), then points strictly above (`dy > 0`, angles in
`(0, π)`), then the ray `dy = 0, dx < 0` (angle `π`).  Within an open
half-plane, `atan2` increases exactly as the cotangent `dx/dy` decreases, so
`-dx/dy` is a monotone rational key.  Two points get equal keys iff their
`atan2` values are equal, in which case the comparator returns `0` and the
(stable) JS sort keeps their input order — which is exactly the behaviour of
`List.insertionSort` with the reflexive comparison below (a stable sort is
uniquely determined by a total preorder).
-/

def angKey (anchor p : Pt) : ℕ × ℚ :=
  let dx := p.x - anchor.x
  let dy := p.y - anchor.y
  if dy < 0 then (0, -dx / dy)
  else if dy > 0 then (2, -dx / dy)
  else if dx < 0 then (3, 0)
  else (1, 0)

/-- Lexicographic comparison of angle keys (`≤`). -/
def keyLE (u v : ℕ × ℚ) : Prop := u.1 < v.1 ∨ (u.1 = v.1 ∧ u.2 ≤ v.2)

instance : DecidableRel keyLE := fun u v => by
  unfold keyLE; infer_instance

/-- The angular sort of `getConvexHull`:
`sort((a, b) => angleA - angleB)` on the vertex list with the anchor removed. -/
def sortedByAngle (anchor : Pt) (l : List Vertex) : List Vertex :=
  List.insertionSort (fun p q => keyLE (angKey anchor p.pt) (angKey anchor q.pt)) l

/-- Anchor selection of `getConvexHull`: index of the bottom-most point
(maximum `y` in canvas coordinates), leftmost on ties. -/
def hullAnchorIdx (l : List Vertex) : ℕ :=
  l.enum.foldl
    (fun st x =>
      let q := l.getD st defaultVertex
      if x.2.y > q.y ∨ (x.2.y = q.y ∧ x.2.x < q.x) then x.1 else st)
    0

/-- The sorted sweep input of `getConvexHull`: all visible points except the
anchor, ordered by polar angle around the anchor. -/
def sweepInput (visible : List Vertex) : List Vertex :=
  sortedByAngle (lookupV visible (hullAnchorIdx visible)).pt
    (visible.eraseIdx (hullAnchorIdx visible))

/-- One step of the Graham sweep.  The stack is kept top-first (the JS code
appends to the end of `hull`, i.e. `hull[hull.length-1]` is our head).  The JS
pop condition is `hull.length > 1 && this.ccw(...) <= 0`; `this.ccw` returns a
boolean which `<= 0` coerces to a number, so the condition is exactly
"not strictly counter-clockwise". -/
def hullPush (stack : List Vertex) (p : Vertex) : List Vertex :=
  match stack with
  | b :: a :: rest => if ccwB a.pt b.pt p.pt then p :: stack else hullPush (a :: rest) p
  | _ => p :: stack

/-- `getConvexHull()` over a given vertex list (the method reads
`this.vertices` and filters the visible ones). -/
def getConvexHull (vs : List Vertex) : List Vertex :=
  let visible := vs.filter (·.visible)
  if visible.length < 3 then visible
  else
    let startPoint := lookupV visible (hullAnchorIdx visible)
    ((sweepInput visible).foldl hullPush [startPoint]).reverse

/-- `isOutsideGraph(x, y, margin)`. -/
def isOutsideGraph (ctx : Ctx) (vs : List Vertex) (p : Pt) (margin : ℚ) : Bool :=
  let hull := getConvexHull vs
  if hull.length < 3 then true
  else if margin > 0 then
    !pointInPolygon p (expandPolygon ctx (hull.map Vertex.pt) margin)
  else !pointInPolygon p (hull.map Vertex.pt)

/-- Tagged versions of the failure messages of `validateBasicPosition`. -/
inductive BMsg where
  | tooCloseToVertex
  | tooCloseToEdge
  | notOutsideGraph
deriving DecidableEq, Repr

/-- `validateBasicPosition(candidate)`; `none` models `{valid: true}`.
The comparisons `distance < 50` and `pointToLineDistance < 30` are embedded
as squared comparisons. -/
def validateBasicPosition (ctx : Ctx) (vs : List Vertex) (es : List (ℕ × ℕ))
    (candidate : Pt) : Option BMsg :=
  match vs.findSome? (fun v =>
      if v.visible && distLt candidate v.pt 50 then some BMsg.tooCloseToVertex else none) with
  | some m => some m
  | none =>
    match es.findSome? (fun e =>
        let vi := lookupV vs e.1
        let vj := lookupV vs e.2
        if vi.visible && vj.visible && decide (pointToLineDistSq candidate vi.pt vj.pt < 30 ^ 2)
        then some BMsg.tooCloseToEdge else none) with
    | some m => some m
    | none =>
      if !isOutsideGraph ctx vs candidate 40 then some BMsg.notOutsideGraph else none

/-- `edgesShareVertex(edge1, edge2)` — tolerance-based endpoint matching
(tolerance `0.001`, compared on squared distances). -/
def edgesShareVertex (e1 e2 : Pt × Pt) : Bool :=
  distLt e1.1 e2.1 (1/1000) || distLt e1.1 e2.2 (1/1000) ||
  distLt e1.2 e2.1 (1/1000) || distLt e1.2 e2.2 (1/1000)

/-- Failure messages of `validateNewEdges` (carrying the vertex identifiers
interpolated into the JS message strings). -/
inductive VMsg where
  | intersectsExisting (id1 id2 : ℕ)
  | newEdgesIntersect
deriving DecidableEq, Repr

/-- `validateNewEdges(newVertexPos, segmentVertices)`; `none` models
`{valid: true}`.  The JS skip `newEdge === otherNewEdge` is an identity test
on the freshly built edge objects; we skip structurally equal edges, which
agrees because any two new edges share the candidate endpoint and would be
skipped by `edgesShareVertex` anyway. -/
def validateNewEdges (vs : List Vertex) (es : List (ℕ × ℕ)) (newVertexPos : Pt)
    (segmentVertices : List ℕ) : Option VMsg :=
  let newEdges : List (Pt × Pt) :=
    segmentVertices.map fun vIdx => (newVertexPos, (lookupV vs vIdx).pt)
  newEdges.findSome? fun newEdge =>
    match es.findSome? (fun e =>
        let v1 := lookupV vs e.1
        let v2 := lookupV vs e.2
        if !(v1.visible && v2.visible) then none
        else if edgesShareVertex newEdge (v1.pt, v2.pt) then none
        else if segmentsIntersectB newEdge.1 newEdge.2 v1.pt v2.pt then
          some (VMsg.intersectsExisting v1.id v2.id)
        else none) with
    | some m => some m
    | none =>
      newEdges.findSome? fun otherNewEdge =>
        if newEdge = otherNewEdge then none
        else if !edgesShareVertex newEdge otherNewEdge &&
            segmentsIntersectB newEdge.1 newEdge.2 otherNewEdge.1 otherNewEdge.2 then
          some VMsg.newEdgesIntersect
        else none

/-- The crossing report of `validateGraphIntegrity` (the four vertex
identifiers interpolated into the JS message). -/
inductive IMsg where
  | crossing (id1 id2 id3 id4 : ℕ)
deriving DecidableEq, Repr

/-- One edge pair check of `validateGraphIntegrity`. -/
def integrityPairCheck (vs : List Vertex) (e1 e2 : ℕ × ℕ) : Option IMsg :=
  if e1.1 = e2.1 ∨ e1.1 = e2.2 ∨ e1.2 = e2.1 ∨ e1.2 = e2.2 then none
  else
    let v1 := lookupV vs e1.1
    let v2 := lookupV vs e1.2
    let v3 := lookupV vs e2.1
    let v4 := lookupV vs e2.2
    if !(v1.visible && v2.visible && v3.visible && v4.visible) then none
    else if segmentsIntersectB v1.pt v2.pt v3.pt v4.pt then
      some (IMsg.crossing v1.id v2.id v3.id v4.id)
    else none

/-- `validateGraphIntegrity()` — the O(E²) all-pairs crossing scan (pairs
`i < j` in edge-list order); `none` models `{valid: true}`. -/
def validateGraphIntegrity (vs : List Vertex) : List (ℕ × ℕ) → Option IMsg
  | [] => none
  | e :: rest =>
    match rest.findSome? (integrityPairCheck vs e) with
    | some m => some m
    | none => validateGraphIntegrity vs rest

/-!
The placement search `findNonIntersectingPosition(segmentVertices)`.
-/

/-- The candidate position of attempt `k`:
`centroid + rotate((k % 8) * 45°, direction) * (80 + 20*k)`, where `direction`
is the normalized vector from the graph center to the segment centroid. -/
def candidateAt (ctx : Ctx) (vs : List Vertex) (segmentVertices : List ℕ)
    (k : ℕ) : Pt :=
  let centroid := calculateCentroid vs segmentVertices
  let graphCenter := calculateGraphCenter vs
  let direction := normalizeVector ctx ⟨centroid.x - graphCenter.x, centroid.y - graphCenter.y⟩
  let dist : ℚ := 80 + k * 20
  let c := ctx.cosT (k % 8)
  let s := ctx.sinT (k % 8)
  let testDirection : Pt :=
    ⟨direction.x * c - direction.y * s, direction.x * s + direction.y * c⟩
  ⟨centroid.x + testDirection.x * dist, centroid.y + testDirection.y * dist⟩

/-- The body of the attempt loop (the JS `for` loop with `maxAttempts = 32`):
`fuel` is the number of attempts still allowed and `k` the current attempt
index, so the loop is entered with `fuel = 32, k = 0` and iteration `k`
executes exactly when `k < 32`. -/
def searchLoop (ctx : Ctx) (vs : List Vertex) (es : List (ℕ × ℕ))
    (segmentVertices : List ℕ) : ℕ → ℕ → Option Pt
  | 0, _ => none
  | fuel + 1, k =>
    let candidate := candidateAt ctx vs segmentVertices k
    if (validateBasicPosition ctx vs es candidate).isSome then
      searchLoop ctx vs es segmentVertices fuel (k + 1)
    else if validateNewEdges vs es candidate segmentVertices = none then
      some candidate
    else searchLoop ctx vs es segmentVertices fuel (k + 1)

/-- `findNonIntersectingPosition(segmentVertices)` (reads `this.vertices` and
`this.edges`). -/
def findNonIntersectingPosition (ctx : Ctx) (vs : List Vertex)
    (es : List (ℕ × ℕ)) (segmentVertices : List ℕ) : Option Pt :=
  searchLoop ctx vs es segmentVertices 32 0

/-- Attempt `k` passes all checks (cheap distance/margin constraints first,
then the full crossing check). -/
def attemptOk (ctx : Ctx) (vs : List Vertex) (es : List (ℕ × ℕ))
    (segmentVertices : List ℕ) (k : ℕ) : Bool :=
  (validateBasicPosition ctx vs es (candidateAt ctx vs segmentVertices k)).isNone &&
  (validateNewEdges vs es (candidateAt ctx vs segmentVertices k) segmentVertices).isNone

/-!
State-passing embedding of the same search, used for the frame property: the
JS method performs reads only, so the explicit state threading returns the
store it was given at every step.
-/

/-- `findNonIntersectingPosition` with the graph store threaded explicitly
through the attempt loop (result, final store). -/
def searchLoopS (ctx : Ctx) (segmentVertices : List ℕ) :
    ℕ → ℕ → Graph → Option Pt × Graph
  | 0, _, g => (none, g)
  | fuel + 1, k, g =>
    let candidate := candidateAt ctx g.vertices segmentVertices k
    if (validateBasicPosition ctx g.vertices g.edges candidate).isSome then
      searchLoopS ctx segmentVertices fuel (k + 1) g
    else if validateNewEdges g.vertices g.edges candidate segmentVertices = none then
      (some candidate, g)
    else searchLoopS ctx segmentVertices fuel (k + 1) g

/-- The preview call `findNonIntersectingPosition(segment)` as a state
transformer on the graph store. -/
def findNonIntersectingPositionS (ctx : Ctx) (g : Graph)
    (segmentVertices : List ℕ) : Option Pt × Graph :=
  searchLoopS ctx segmentVertices 32 0 g

/-!
Periphery bookkeeping.
-/

/-- The loop body of `getPeripherySegment`: push `periphery[current]`, stop
when `current === endIdx`, else advance `current = (current + 1) % n`.  The
`fuel` argument bounds the number of iterations; `none` means the loop would
still be running after `fuel` iterations. -/
def segLoop (periphery : List ℕ) (endIdx : ℕ) :
    ℕ → ℕ → List ℕ → Option (List ℕ)
  | 0, _, _ => none
  | fuel + 1, current, acc =>
    let acc' := acc ++ [periphery.getD current 0]
    if current = endIdx then some acc'
    else segLoop periphery endIdx fuel ((current + 1) % periphery.length) acc'

/-- `getPeripherySegment(startIdx, endIdx)`.  For in-range indices the loop
terminates after at most `periphery.length` iterations (see the termination
theorem on `segLoop` below), so running it with fuel `periphery.length` is
exact there; the `getD []` default is never reached on the guarded call
sites. -/
def getPeripherySegment (periphery : List ℕ) (startIdx endIdx : ℕ) : List ℕ :=
  if startIdx = endIdx then [periphery.getD startIdx 0]
  else (segLoop periphery endIdx periphery.length startIdx []).getD []

/-- The `area` accumulation of `ensureClockwiseOrder`: one term
`(vj.x - vi.x) * (vj.y + vi.y)` per consecutive pair. -/
def areaTerm (vi vj : Pt) : ℚ := (vj.x - vi.x) * (vj.y + vi.y)

/-- Sum of `areaTerm` over adjacent pairs of a list (no wrap-around). -/
def areaPath : List Pt → ℚ
  | [] => 0
  | [_] => 0
  | a :: b :: t => areaTerm a b + areaPath (b :: t)

/-- The full signed-area loop of `ensureClockwiseOrder`: terms for
`i = 0, …, n-1` with `j = (i+1) % n`, i.e. all adjacent pairs plus the
wrap-around term from the last point back to the first. -/
def signedAreaCW : List Pt → ℚ
  | [] => 0
  | a :: t => areaPath (a :: t) + areaTerm (t.getLastD a) a

/-- `ensureClockwiseOrder()` (reads `this.vertices`, rewrites
`this.periphery`). -/
def ensureClockwiseOrder (vs : List Vertex) (periphery : List ℕ) : List ℕ :=
  if periphery.length < 3 then periphery
  else if signedAreaCW (periphery.map fun i => (lookupV vs i).pt) < 0 then
    periphery.reverse
  else periphery

/-- The periphery produced by `updatePeriphery()`: map each hull vertex back
to its index in `this.vertices` and re-orient clockwise.  The JS
`findIndex(v => v === vertex)` is an identity search; we use structural
equality, which coincides whenever the stored vertices are pairwise distinct
(`List.findIdx` returns the list length when nothing matches, where JS would
return `-1`; hull vertices always come from the list, so neither default is
reached). -/
def recomputedPeriphery (vs : List Vertex) : List ℕ :=
  ensureClockwiseOrder vs
    ((getConvexHull vs).map fun v => vs.findIdx (fun w => w == v))

/-- `updatePeriphery()`. -/
def updatePeriphery (g : Graph) : Graph :=
  { g with periphery := recomputedPeriphery g.vertices }

/-- `updatePeripheryAfterSegmentReplacement(startIdx, endIdx, newVertexIdx)`.
`slice(0, startIdx)`/`slice(endIdx+1)` become `take`/`drop`; the wrap-around
branch `slice(endIdx+1, startIdx)` is `drop (endIdx+1)` then
`take (startIdx-(endIdx+1))`. -/
def updatePeripheryAfterSegmentReplacement (g : Graph)
    (startIdx endIdx newVertexIdx : ℕ) : Graph :=
  let p := g.periphery
  let np :=
    if startIdx ≤ endIdx then
      p.take startIdx ++ [newVertexIdx] ++ p.drop (endIdx + 1)
    else
      ((p.drop (endIdx + 1)).take (startIdx - (endIdx + 1))) ++ [newVertexIdx]
  { g with periphery := ensureClockwiseOrder g.vertices np }

/-- `initializeTriangle()`. -/
def initializeTriangle (g : Graph) : Graph :=
  { g with
    vertices := [⟨0, -100, true, 1⟩, ⟨-87, 50, true, 2⟩, ⟨87, 50, true, 3⟩],
    edges := [(0, 1), (1, 2), (2, 0)],
    periphery := [0, 1, 2],
    selectedVertices := [],
    segmentVertices := [],
    maxVertexId := 3 }

/-!
The insertion transaction `processSegmentSelection()`.
-/

/-- The message of a `processSegmentSelection` result, with the values the JS
code interpolates into the string (`added id count` stands for
`"Added vertex V${id} connecting to segment of ${count} vertices …"`). -/
inductive Msg where
  | mustSelectTwo
  | mustBeInPeriphery
  | segmentTooSmall
  | noValidPosition
  | cannotAdd (m : VMsg)
  | rolledBack (m : IMsg)
  | added (id count : ℕ)
deriving DecidableEq, Repr

/-- The `{success, message}` result object. -/
structure SResult where
  success : Bool
  message : Msg
deriving DecidableEq, Repr

/-- The committed (not yet integrity-checked) state of the commit phase of
`processSegmentSelection`: vertex appended with identifier `maxVertexId + 1`
(the JS `++this.maxVertexId`), one edge per segment vertex from the new index
`s1.vertices.length`, and the periphery arc replaced by the new index. -/
def committedState (s1 : Graph) (seg : List ℕ) (p1Idx p2Idx : ℕ) (pos : Pt) :
    Graph :=
  updatePeripheryAfterSegmentReplacement
    { s1 with
      vertices := s1.vertices ++ [⟨pos.x, pos.y, true, s1.maxVertexId + 1⟩],
      maxVertexId := s1.maxVertexId + 1,
      edges := s1.edges ++ seg.map fun vIdx => (s1.vertices.length, vIdx) }
    p1Idx p2Idx s1.vertices.length

/-- The commit phase of `processSegmentSelection` (everything after the final
pre-commit validation passed): build the committed state, then run the
post-commit integrity scan and either roll back or clear the selection and
report success.  The rollback `edges.slice(0, -n)` is `take (length - n)`,
which agrees with JS for the `n = segmentVertices.length ≥ 2` guaranteed by
the guard upstream. -/
def attemptCommit (s1 : Graph) (seg : List ℕ) (p1Idx p2Idx : ℕ) (pos : Pt) :
    SResult × Graph :=
  let s4 := committedState s1 seg p1Idx p2Idx pos
  match validateGraphIntegrity s4.vertices s4.edges with
  | some im =>
    let s5 : Graph :=
      { s4 with
        vertices := s4.vertices.dropLast,
        edges := s4.edges.take (s4.edges.length - seg.length) }
    (⟨false, Msg.rolledBack im⟩, updatePeriphery s5)
  | none =>
    let s5 : Graph := { s4 with selectedVertices := [], segmentVertices := [] }
    (⟨true, Msg.added s5.maxVertexId s5.segmentVertices.length⟩, s5)

/-- `processSegmentSelection()`.  `indexOf` is embedded as `findIdx?` (the JS
code only tests the result against `-1`, which corresponds to `none`). -/
def processSegmentSelection (ctx : Ctx) (s : Graph) : SResult × Graph :=
  match s.selectedVertices with
  | [v1Idx, v2Idx] =>
    match s.periphery.findIdx? (· == v1Idx), s.periphery.findIdx? (· == v2Idx) with
    | some p1Idx, some p2Idx =>
      let seg := getPeripherySegment s.periphery p1Idx p2Idx
      let s1 : Graph := { s with segmentVertices := seg }
      if seg.length < 2 then (⟨false, Msg.segmentTooSmall⟩, s1)
      else
        match findNonIntersectingPosition ctx s1.vertices s1.edges seg with
        | none => (⟨false, Msg.noValidPosition⟩, s1)
        | some newPosition =>
          match validateNewEdges s1.vertices s1.edges newPosition seg with
          | some m => (⟨false, Msg.cannotAdd m⟩, s1)
          | none => attemptCommit s1 seg p1Idx p2Idx newPosition
    | _, _ => (⟨false, Msg.mustBeInPeriphery⟩, s)
  | _ => (⟨false, Msg.mustSelectTwo⟩, s)

/-!
Concrete instantiation of the numeric context, used by the concrete
evaluations below.
-/

/-- Newton iteration for the integer square root (structural recursion on a
fuel counter; `100` iterations are ample for every number below, and the
result is only used after the exactness check in `ratSqrt`). -/
def isqrtAux (n : ℕ) : ℕ → ℕ → ℕ
  | 0, x => x
  | fuel + 1, x =>
    let next := (x + n / x) / 2
    if x ≤ next then x else isqrtAux n fuel next

def isqrt (n : ℕ) : ℕ := if n ≤ 1 then n else isqrtAux n 100 n

/-- Exact square root on perfect squares of rationals (`ratSqrt ((a/b)^2) =
a/b` for `a/b ≥ 0` in lowest terms), `0` elsewhere.  Every concrete evaluation
below only applies `sqrt` to perfect squares, where this agrees with
`Math.sqrt`. -/
def ratSqrt (q : ℚ) : ℚ :=
  if q.num < 0 then 0
  else
    let n := q.num.toNat
    let d := q.den
    if isqrt n * isqrt n = n ∧ isqrt d * isqrt d = d then
      (isqrt n : ℚ) / (isqrt d : ℚ)
    else 0

/-- Concrete context: exact square root, and a trigonometric table that is
exact at index `0` (`cos 0 = 1`, `sin 0 = 0`) — the only index forced by the
concrete evaluations below, which either return at attempt `0` or reject every
attempt for reasons independent of the table values. -/
def ctx0 : Ctx :=
  ⟨ratSqrt, fun k => if k = 0 then 1 else 0, fun _ => 0⟩

/-- Triangle state about to perform a successful insertion: vertices `V1 =
(0,-160)`, `V2 = (-60,80)`, `V3 = (60,80)`, the triangle's three edges,
periphery `[0,1,2]`, and the segment endpoints `V2, V3` selected. -/
def gSuccess : Graph :=
  { vertices :=
      [⟨0, -160, true, 1⟩, ⟨-60, 80, true, 2⟩, ⟨60, 80, true, 3⟩],
    edges := [(0, 1), (1, 2), (2, 0)],
    periphery := [0, 1, 2],
    selectedVertices := [1, 2],
    segmentVertices := [],
    maxVertexId := 3 }

/-- The same triangle and selection as `gSuccess`, plus four extra visible
vertices strictly inside the triangle whose two extra edges `(3,4)` and
`(5,6)` cross each other at the origin.  The crossing pre-exists the
insertion attempt; the placement search and the pre-commit validation only
examine the *new* edges and pass, while the post-commit full scan finds the
crossing and triggers the rollback path. -/
def gRollback : Graph :=
  { vertices :=
      [⟨0, -160, true, 1⟩, ⟨-60, 80, true, 2⟩, ⟨60, 80, true, 3⟩,
       ⟨-20, 0, true, 4⟩, ⟨20, 0, true, 5⟩, ⟨0, -20, true, 6⟩, ⟨0, 20, true, 7⟩],
    edges := [(0, 1), (1, 2), (2, 0), (3, 4), (5, 6)],
    periphery := [0, 1, 2],
    selectedVertices := [1, 2],
    segmentVertices := [],
    maxVertexId := 7 }

/-- A state on which the placement search finds no position: a huge triangle
(indices 0–2) whose interior contains the two selected periphery vertices
(indices 3 and 4, periphery `[3, 4]`); every candidate of every attempt stays
deep inside the hull (or too close to a vertex), so all 32 attempts fail. -/
def gNoPlace : Graph :=
  { vertices :=
      [⟨0, -16000, true, 1⟩, ⟨-6000, 8000, true, 2⟩, ⟨6000, 8000, true, 3⟩,
       ⟨-100, 0, true, 4⟩, ⟨100, 0, true, 5⟩],
    edges := [(0, 1), (1, 2), (2, 0)],
    periphery := [3, 4],
    selectedVertices := [3, 4],
    segmentVertices := [],
    maxVertexId := 5 }



/-!
Lemmas about the attempt loop.
-/

/-- The attempt loop returns the candidate of the first passing attempt among
`k, k+1, …, k+fuel-1`, or `none`. -/
theorem searchLoop_eq_find (ctx : Ctx) (vs : List Vertex) (es : List (ℕ × ℕ))
    (seg : List ℕ) :
    ∀ (fuel k : ℕ),
      searchLoop ctx vs es seg fuel k =
        ((List.range' k fuel).find? (attemptOk ctx vs es seg)).map
          (candidateAt ctx vs seg)
  | 0, k => by simp [searchLoop]
  | fuel + 1, k => by
    rw [searchLoop, List.range']
    rcases h1 : validateBasicPosition ctx vs es (candidateAt ctx vs seg k) with _ | m
    · rcases h2 : validateNewEdges vs es (candidateAt ctx vs seg k) seg with _ | m2
      · simp [attemptOk, h1, h2, List.find?]
      · simp only [attemptOk, h1, h2, List.find?, Option.isSome_none,
          Bool.false_eq_true, if_false, Option.isNone_none, Option.isNone_some,
          Bool.true_and, Bool.and_false]
        simp [searchLoop_eq_find ctx vs es seg fuel (k + 1)]
    · simp only [attemptOk, h1, List.find?, Option.isSome_some, if_true,
        Option.isNone_some, Bool.false_and]
      simp [searchLoop_eq_find ctx vs es seg fuel (k + 1)]

/-- The state-threaded attempt loop computes the same answer as the pure one
and returns the store unchanged. -/
theorem searchLoopS_eq (ctx : Ctx) (seg : List ℕ) :
    ∀ (fuel k : ℕ) (g : Graph),
      searchLoopS ctx seg fuel k g =
        (searchLoop ctx g.vertices g.edges seg fuel k, g)
  | 0, k, g => by simp [searchLoopS, searchLoop]
  | fuel + 1, k, g => by
    rw [searchLoopS, searchLoop]
    rcases h1 : validateBasicPosition ctx g.vertices g.edges
        (candidateAt ctx g.vertices seg k) with _ | m
    · rcases h2 : validateNewEdges g.vertices g.edges
          (candidateAt ctx g.vertices seg k) seg with _ | m2
      · simp [h1, h2]
      · simp [h1, h2, searchLoopS_eq ctx seg fuel (k + 1) g]
    · simp [h1, searchLoopS_eq ctx seg fuel (k + 1) g]

/-- C3: the placement search runs at most 32 attempts; attempt `k`
(`k = 0 … 31`) places its candidate at the segment centroid plus the base
direction rotated by `(k % 8)·45°` (`candidateAt` applies the rotation matrix
with the table entries for index `k % 8`), scaled by distance `80 + 20·k`, and
the search returns the candidate of the first attempt that passes the
distance/margin checks (`validateBasicPosition`) and the intersection check
(`validateNewEdges`), or `none` when all 32 attempts fail. -/
theorem C3_placement_search_first_of_32 (ctx : Ctx) (vs : List Vertex)
    (es : List (ℕ × ℕ)) (seg : List ℕ) :
    findNonIntersectingPosition ctx vs es seg =
      ((List.range 32).find? (attemptOk ctx vs es seg)).map
        (candidateAt ctx vs seg) := by
  rw [findNonIntersectingPosition, searchLoop_eq_find, List.range_eq_range']

/-- C8: the placement-preview call into the placement search mutates no graph
state: threading the store through the search loop returns the vertex list,
edge list, periphery, selection and segment-vertex list unchanged (indeed the
whole store), and yields the same answer as the pure reading of the search. -/
theorem C8_preview_is_read_only (ctx : Ctx) (g : Graph) (seg : List ℕ) :
    (findNonIntersectingPositionS ctx g seg).2.vertices = g.vertices ∧
    (findNonIntersectingPositionS ctx g seg).2.edges = g.edges ∧
    (findNonIntersectingPositionS ctx g seg).2.periphery = g.periphery ∧
    (findNonIntersectingPositionS ctx g seg).2.selectedVertices = g.selectedVertices ∧
    (findNonIntersectingPositionS ctx g seg).2.segmentVertices = g.segmentVertices ∧
    (findNonIntersectingPositionS ctx g seg).1 =
      findNonIntersectingPosition ctx g.vertices g.edges seg := by
  rw [findNonIntersectingPositionS, searchLoopS_eq, findNonIntersectingPosition]
  exact ⟨rfl, rfl, rfl, rfl, rfl, rfl⟩

/-!
Lemmas about the `getPeripherySegment` loop.
-/

/-- Distance (in loop iterations) from `current` to `endIdx` walking forward
modulo the periphery length. -/
def segSteps (n endIdx current : ℕ) : ℕ :=
  if current ≤ endIdx then endIdx - current else n - current + endIdx

/-- With both positions in range, the loop reaches `endIdx` within `fuel`
iterations whenever `fuel` exceeds the forward distance, and the produced list
grows by exactly `segSteps + 1` entries. -/
theorem segLoop_completes (p : List ℕ) (e : ℕ) (he : e < p.length) :
    ∀ (fuel c : ℕ) (acc : List ℕ), c < p.length →
      segSteps p.length e c < fuel →
      ∃ l, segLoop p e fuel c acc = some l ∧
        l.length = acc.length + segSteps p.length e c + 1
  | 0, c, acc => by
    intro _ hlt
    exact absurd hlt (by omega)
  | fuel + 1, c, acc => by
    intro hc hlt
    rw [segLoop]
    by_cases hce : c = e
    · subst hce
      refine ⟨acc ++ [p.getD c 0], by simp, ?_⟩
      simp [segSteps]
    · have hn : 0 < p.length := by omega
      simp only [if_neg hce]
      have hnext : (c + 1) % p.length < p.length := Nat.mod_lt _ hn
      have hsteps : segSteps p.length e ((c + 1) % p.length) =
          segSteps p.length e c - 1 ∧ 0 < segSteps p.length e c := by
        by_cases hlast : c + 1 = p.length
        · have : (c + 1) % p.length = 0 := by rw [hlast]; exact Nat.mod_self _
          rw [this]
          unfold segSteps
          by_cases hle : c ≤ e <;> simp [hle] <;> omega
        · have : (c + 1) % p.length = c + 1 := Nat.mod_eq_of_lt (by omega)
          rw [this]
          unfold segSteps
          by_cases hle : c ≤ e
          · have : c + 1 ≤ e := by omega
            simp [hle, this]
            omega
          · have : ¬ c + 1 ≤ e := by omega
            simp [hle, this]
            omega
      obtain ⟨l, hl, hlen⟩ :=
        segLoop_completes p e he fuel ((c + 1) % p.length) (acc ++ [p.getD c 0])
          hnext (by omega)
      refine ⟨l, hl, ?_⟩
      rw [hlen]
      simp
      omega

/-- With `endIdx` out of range (and a nonempty periphery), the loop never
stops: after the first step `current` is always `< p.length ≤ endIdx`. -/
theorem segLoop_diverges (p : List ℕ) (e : ℕ) (he : p.length ≤ e)
    (hn : 0 < p.length) :
    ∀ (fuel c : ℕ) (acc : List ℕ), c ≠ e → segLoop p e fuel c acc = none
  | 0, c, acc => by intro _; rfl
  | fuel + 1, c, acc => by
    intro hce
    rw [segLoop]
    simp only [if_neg hce]
    exact segLoop_diverges p e he hn fuel ((c + 1) % p.length) _
      (by have := Nat.mod_lt (c + 1) hn; omega)

/-- C10: for `0 ≤ startIdx, endIdx < periphery.length` the extraction loop of
`getPeripherySegment` terminates — running it with fuel `periphery.length`
already completes — and the returned list has length at most
`periphery.length`.  Conversely the bound is necessary: with `endIdx` out of
range (`periphery.length ≤ endIdx`, nonempty periphery, `startIdx ≠ endIdx`)
the loop never stops, for any amount of fuel, because `current` advances
modulo the periphery length and can only stop by reaching `endIdx`. -/
theorem C10_getPeripherySegment_terminates (p : List ℕ) (s e : ℕ) :
    (s < p.length → e < p.length →
      (s = e ∨ (segLoop p e p.length s []).isSome) ∧
      (getPeripherySegment p s e).length ≤ p.length) ∧
    (0 < p.length → p.length ≤ e → s ≠ e →
      ∀ (fuel : ℕ) (acc : List ℕ), segLoop p e fuel s acc = none) := by
  constructor
  · intro hs he
    by_cases hse : s = e
    · subst hse
      refine ⟨Or.inl rfl, ?_⟩
      rw [getPeripherySegment, if_pos rfl]
      simp only [List.length_singleton]
      omega
    · have hsteps : segSteps p.length e s < p.length := by
        unfold segSteps; split <;> omega
      obtain ⟨l, hl, hlen⟩ := segLoop_completes p e he p.length s [] hs hsteps
      simp only [List.length_nil] at hlen
      refine ⟨Or.inr (by rw [hl]; rfl), ?_⟩
      rw [getPeripherySegment, if_neg hse, hl]
      simp only [Option.getD_some]
      omega
  · intro hn he hse fuel acc
    exact segLoop_diverges p e he hn fuel s acc hse

/-- Witness for C10 at concrete inputs: the wrap-around segment from position
2 to position 0 of a 3-element periphery is produced with length ≤ 3, and with
`endIdx = 5` out of range the loop refuses to finish even with more fuel. -/
theorem C10_witness :
    (getPeripherySegment [5, 6, 7] 2 0).length ≤ 3 ∧
    segLoop [5, 6, 7] 5 1000 2 [] = none :=
  ⟨((C10_getPeripherySegment_terminates [5, 6, 7] 2 0).1 (by decide) (by decide)).2,
   (C10_getPeripherySegment_terminates [5, 6, 7] 2 5).2 (by decide) (by decide)
     (by decide) 1000 []⟩

/-!
Lemmas about the signed-area computation of `ensureClockwiseOrder`.
-/

theorem areaTerm_swap (a b : Pt) : areaTerm b a = -areaTerm a b := by
  unfold areaTerm; ring

theorem areaTerm_self (a : Pt) : areaTerm a a = 0 := by
  unfold areaTerm; ring

theorem areaPath_concat (a : Pt) :
    ∀ (l : List Pt) (x : Pt),
      areaPath ((a :: l) ++ [x]) = areaPath (a :: l) + areaTerm (l.getLastD a) x
  | [], x => by simp [areaPath]
  | b :: t, x => by
    have ih := areaPath_concat b t x
    simp only [List.cons_append] at ih ⊢
    rw [List.getLastD_cons,
      show areaPath (a :: b :: (t ++ [x])) =
        areaTerm a b + areaPath (b :: (t ++ [x])) from rfl,
      show areaPath (a :: b :: t) = areaTerm a b + areaPath (b :: t) from rfl,
      ih]
    ring

theorem getLastD_reverse (l : List Pt) (d : Pt) :
    (l.reverse).getLastD d = l.headD d := by
  rw [List.getLastD_eq_getLast?, List.getLast?_reverse, List.headD_eq_head?]

theorem areaPath_reverse : ∀ l : List Pt, areaPath l.reverse = -areaPath l
  | [] => by simp [areaPath]
  | [a] => by simp [areaPath]
  | a :: b :: t => by
    have ih := areaPath_reverse (b :: t)
    rcases h : (b :: t).reverse with _ | ⟨c, m⟩
    · exact absurd h (by simp)
    · have hrev : (a :: b :: t).reverse = (c :: m) ++ [a] := by
        rw [List.reverse_cons, h]
      rw [hrev, areaPath_concat c m a]
      have hm : m.getLastD c = b := by
        have h0 : (c :: m).getLastD c = b := by
          rw [← h, getLastD_reverse]; rfl
        rwa [List.getLastD_cons] at h0
      rw [hm, ← h, ih, areaTerm_swap a b,
        show areaPath (a :: b :: t) = areaTerm a b + areaPath (b :: t) from rfl]
      ring

theorem signedAreaCW_reverse (l : List Pt) :
    signedAreaCW l.reverse = -signedAreaCW l := by
  rcases l with _ | ⟨a, t⟩
  · simp [signedAreaCW]
  · rcases t with _ | ⟨b, t'⟩
    · simp [signedAreaCW, areaPath, areaTerm_self]
    · rcases h : (b :: t').reverse with _ | ⟨c, m⟩
      · exact absurd h (by simp)
      · have hrev : (a :: b :: t').reverse = c :: (m ++ [a]) := by
          rw [List.reverse_cons, h]; rfl
        rw [hrev]
        rw [show signedAreaCW (c :: (m ++ [a])) =
            areaPath (c :: (m ++ [a])) + areaTerm ((m ++ [a]).getLastD c) c from rfl]
        rw [show signedAreaCW (a :: b :: t') =
            areaPath (a :: b :: t') + areaTerm ((b :: t').getLastD a) a from rfl]
        rw [show areaPath (c :: (m ++ [a])) = areaPath ((c :: m) ++ [a]) from rfl,
          areaPath_concat c m a]
        have hm : m.getLastD c = b := by
          have h0 : (c :: m).getLastD c = b := by
            rw [← h, getLastD_reverse]; rfl
          rwa [List.getLastD_cons] at h0
        have hlastrev : (m ++ [a]).getLastD c = a := by
          simp [List.getLastD_eq_getLast?]
        have hlast2 : (b :: t').getLastD a = c := by
          have h0 : ((b :: t').reverse).head? = some c := by rw [h]; rfl
          rw [List.head?_reverse] at h0
          rw [List.getLastD_eq_getLast?, h0]; rfl
        rw [hm, hlastrev, hlast2, ← h, areaPath_reverse (b :: t'),
          areaTerm_swap a b, areaTerm_swap c a,
          show areaPath (a :: b :: t') = areaTerm a b + areaPath (b :: t') from rfl]
        ring

/-- C7: after the clockwise re-orientation pass (`ensureClockwiseOrder`, which
every periphery-writing operation runs last), a periphery of length ≥ 3 has a
signed area that is never negative under the implementation's area formula —
the sum of `(x_j - x_i)·(y_j + y_i)` over consecutive periphery pairs: the
pass reverses the list exactly when that sum is negative, and reversing a
cyclic point sequence negates the sum. -/
theorem C7_clockwise_area_nonneg (vs : List Vertex) (p : List ℕ)
    (h : 3 ≤ p.length) :
    0 ≤ signedAreaCW ((ensureClockwiseOrder vs p).map fun i => (lookupV vs i).pt) := by
  rw [ensureClockwiseOrder]
  rw [if_neg (by omega)]
  by_cases harea : signedAreaCW (p.map fun i => (lookupV vs i).pt) < 0
  · rw [if_pos harea, List.map_reverse, signedAreaCW_reverse]
    linarith
  · rw [if_neg harea]
    linarith [not_lt.mp harea]

/-- Witness for C7: re-orienting the counter-clockwise triangle periphery
`[2, 1, 0]` of `gSuccess` yields a non-negative signed area. -/
theorem C7_witness :
    0 ≤ signedAreaCW ((ensureClockwiseOrder gSuccess.vertices [2, 1, 0]).map
      fun i => (lookupV gSuccess.vertices i).pt) :=
  C7_clockwise_area_nonneg gSuccess.vertices [2, 1, 0] (by decide)

/-!
Lemmas about the angular sort.
-/

theorem keyLE_refl (u : ℕ × ℚ) : keyLE u u := Or.inr ⟨rfl, le_refl _⟩

/-- Inserting `x` into a list places it before every element of its own
angle-equivalence class: restricted to one class, `orderedInsert` is `cons`. -/
theorem filter_orderedInsert (anchor : Pt) (κ : ℕ × ℚ) (x : Vertex) :
    ∀ l : List Vertex,
      (List.orderedInsert (fun p q => keyLE (angKey anchor p.pt) (angKey anchor q.pt)) x l).filter
          (fun v => decide (angKey anchor v.pt = κ)) =
        if angKey anchor x.pt = κ then
          x :: l.filter (fun v => decide (angKey anchor v.pt = κ))
        else l.filter (fun v => decide (angKey anchor v.pt = κ))
  | [] => by
    simp only [List.orderedInsert, List.filter]
    split <;> simp_all
  | b :: t => by
    rw [List.orderedInsert]
    by_cases hr : keyLE (angKey anchor x.pt) (angKey anchor b.pt)
    · rw [if_pos hr]
      by_cases hx : angKey anchor x.pt = κ <;> simp [List.filter, hx]
    · rw [if_neg hr]
      have ih := filter_orderedInsert anchor κ x t
      by_cases hx : angKey anchor x.pt = κ
      · have hb : ¬ angKey anchor b.pt = κ := by
          intro hbk
          exact hr (hx ▸ hbk ▸ keyLE_refl _)
        simp [List.filter_cons, hb, ih, hx]
      · simp only [List.filter_cons, ih, if_neg hx]

/-- C4 (amended): in the hull's angular sort, elements with equal polar angle
keep their relative order from the input list (the comparator treats them as
equal and the sort is stable): restricting the sorted output to any single
angle-equivalence class reproduces the input's subsequence. -/
theorem C4_ties_keep_input_order (anchor : Pt) (κ : ℕ × ℚ) :
    ∀ l : List Vertex,
      (sortedByAngle anchor l).filter (fun v => decide (angKey anchor v.pt = κ)) =
        l.filter (fun v => decide (angKey anchor v.pt = κ))
  | [] => rfl
  | b :: t => by
    rw [sortedByAngle, List.insertionSort]
    rw [show List.insertionSort
        (fun p q => keyLE (angKey anchor p.pt) (angKey anchor q.pt)) t =
      sortedByAngle anchor t from rfl]
    rw [filter_orderedInsert anchor κ b (sortedByAngle anchor t),
      C4_ties_keep_input_order anchor κ t]
    by_cases hb : angKey anchor b.pt = κ <;> simp [List.filter, hb]

/-- C4 (counterexample): the vertex list `[(4,96), (2,98), (0,100)]` has the
anchor `(0,100)` (maximum `y`); the two remaining points have equal polar
angle around the anchor, yet the sorted sweep input keeps the input order
`[(4,96), (2,98)]`, with the *farther* point first — the order is not
determined by ascending distance from the anchor. -/
theorem C4_counterexample :
    sweepInput [⟨4, 96, true, 1⟩, ⟨2, 98, true, 2⟩, ⟨0, 100, true, 3⟩] =
      [⟨4, 96, true, 1⟩, ⟨2, 98, true, 2⟩] ∧
    angKey ⟨0, 100⟩ ⟨4, 96⟩ = angKey ⟨0, 100⟩ ⟨2, 98⟩ ∧
    distSq ⟨0, 100⟩ ⟨4, 96⟩ > distSq ⟨0, 100⟩ ⟨2, 98⟩ := by decide

/-- C2: if the placement search finds no candidate for the selected segment,
the insertion returns a failure result and the vertex list, edge list and
periphery are unchanged.  (The hypotheses state that a 2-element selection
resolved to periphery positions `p1Idx`, `p2Idx`; if the resulting segment is
shorter than 2 the call fails even earlier, also leaving those three
components untouched.) -/
theorem C2_no_placement_preserves_state (ctx : Ctx) (s : Graph)
    (v1Idx v2Idx p1Idx p2Idx : ℕ)
    (hsel : s.selectedVertices = [v1Idx, v2Idx])
    (h1 : s.periphery.findIdx? (· == v1Idx) = some p1Idx)
    (h2 : s.periphery.findIdx? (· == v2Idx) = some p2Idx)
    (hfind : findNonIntersectingPosition ctx s.vertices s.edges
        (getPeripherySegment s.periphery p1Idx p2Idx) = none) :
    (processSegmentSelection ctx s).1.success = false ∧
    (processSegmentSelection ctx s).2.vertices = s.vertices ∧
    (processSegmentSelection ctx s).2.edges = s.edges ∧
    (processSegmentSelection ctx s).2.periphery = s.periphery := by
  obtain ⟨vs, es, per, sel, sv, mx⟩ := s
  simp only at hsel h1 h2 hfind
  subst hsel
  rw [processSegmentSelection]
  simp only [h1, h2]
  by_cases hlen : (getPeripherySegment per p1Idx p2Idx).length < 2
  · simp [hlen]
  · simp only [if_neg hlen]
    simp [hfind]

/-- Witness for C2: on `gNoPlace` the placement search exhausts all 32
attempts without a candidate, and the insertion fails leaving the vertex
list, edge list and periphery untouched. -/
theorem C2_witness :
    (processSegmentSelection ctx0 gNoPlace).1.success = false ∧
    (processSegmentSelection ctx0 gNoPlace).2.vertices = gNoPlace.vertices ∧
    (processSegmentSelection ctx0 gNoPlace).2.edges = gNoPlace.edges ∧
    (processSegmentSelection ctx0 gNoPlace).2.periphery = gNoPlace.periphery :=
  C2_no_placement_preserves_state ctx0 gNoPlace 3 4 0 1 rfl (by decide) (by decide)
    (by decide)

/-- C1 (amended): when the post-commit integrity scan detects a crossing, the
insertion is rolled back and reported as a failure; the vertex list and edge
list are restored exactly to their pre-attempt values, but the periphery is
*recomputed* from the convex hull of the (restored) vertices
(`recomputedPeriphery`) rather than restored to the pre-attempt list — so the
full state need not be structurally equal to the pre-attempt snapshot, as the
concrete counterexample shows. -/
theorem C1_rollback_restores_vertices_and_edges (ctx : Ctx) (s : Graph)
    (v1Idx v2Idx p1Idx p2Idx : ℕ) (pos : Pt) (im : IMsg) (seg : List ℕ)
    (hseg : seg = getPeripherySegment s.periphery p1Idx p2Idx)
    (hsel : s.selectedVertices = [v1Idx, v2Idx])
    (h1 : s.periphery.findIdx? (· == v1Idx) = some p1Idx)
    (h2 : s.periphery.findIdx? (· == v2Idx) = some p2Idx)
    (hlen : ¬ seg.length < 2)
    (hfind : findNonIntersectingPosition ctx s.vertices s.edges seg = some pos)
    (hval : validateNewEdges s.vertices s.edges pos seg = none)
    (hint : validateGraphIntegrity
        (committedState { s with segmentVertices := seg } seg p1Idx p2Idx pos).vertices
        (committedState { s with segmentVertices := seg } seg p1Idx p2Idx pos).edges
      = some im) :
    (processSegmentSelection ctx s).1 = ⟨false, Msg.rolledBack im⟩ ∧
    (processSegmentSelection ctx s).2.vertices = s.vertices ∧
    (processSegmentSelection ctx s).2.edges = s.edges ∧
    (processSegmentSelection ctx s).2.periphery = recomputedPeriphery s.vertices := by
  obtain ⟨vs, es, per, sel, sv, mx⟩ := s
  simp only at hseg hsel h1 h2 hlen hfind hval hint
  subst hsel
  rw [processSegmentSelection]
  simp only [h1, h2, ← hseg, if_neg hlen, hfind, hval]
  rw [attemptCommit]
  simp only [hint]
  refine ⟨trivial, ?_, ?_, ?_⟩
  · simp [updatePeriphery, committedState, updatePeripheryAfterSegmentReplacement,
      List.dropLast_concat]
  · simp [updatePeriphery, committedState, updatePeripheryAfterSegmentReplacement]
  · simp [updatePeriphery, recomputedPeriphery, committedState,
      updatePeripheryAfterSegmentReplacement, List.dropLast_concat]

/-- C1 (counterexample): on `gRollback` the post-commit scan detects the
pre-existing crossing between edges `(3,4)` and `(5,6)` (reported as
`V4-V5 × V6-V7`), the insertion is rolled back, and the vertex and edge lists
are restored — but the resulting periphery `[2, 0, 1]` is the hull
recomputation's rotation, not the pre-attempt list `[0, 1, 2]`: the graph
state is *not* structurally equal to the pre-attempt state. -/
theorem C1_counterexample :
    (processSegmentSelection ctx0 gRollback).1.message =
      Msg.rolledBack (IMsg.crossing 4 5 6 7) ∧
    (processSegmentSelection ctx0 gRollback).2.vertices = gRollback.vertices ∧
    (processSegmentSelection ctx0 gRollback).2.edges = gRollback.edges ∧
    (processSegmentSelection ctx0 gRollback).2.periphery ≠ gRollback.periphery := by
  decide

/-- Witness for C1 (amended theorem) at the state `gRollback`: every
hypothesis of the rollback branch holds there, so the rolled-back state keeps
the pre-attempt vertices and edges and carries the recomputed periphery. -/
theorem C1_witness :
    (processSegmentSelection ctx0 gRollback).1 =
      ⟨false, Msg.rolledBack (IMsg.crossing 4 5 6 7)⟩ ∧
    (processSegmentSelection ctx0 gRollback).2.vertices = gRollback.vertices ∧
    (processSegmentSelection ctx0 gRollback).2.edges = gRollback.edges ∧
    (processSegmentSelection ctx0 gRollback).2.periphery =
      recomputedPeriphery gRollback.vertices :=
  C1_rollback_restores_vertices_and_edges ctx0 gRollback 1 2 1 2 ⟨0, 160⟩
    (IMsg.crossing 4 5 6 7) [1, 2] (by decide) rfl (by decide) (by decide)
    (by decide) (by decide) (by decide) (by decide)

/-- State for the C5 counterexample: a 2-element selection that does not
resolve to periphery positions, with a non-empty segment-vertex list left
over from earlier interaction. -/
def gBadSel : Graph :=
  { vertices := [], edges := [], periphery := [], selectedVertices := [0, 1],
    segmentVertices := [9], maxVertexId := 0 }

/-- C5 (counterexample): a failed insertion attempt (here: the selected
vertices are not in the periphery) leaves both the selection list and the
segment-vertex list uncleared — `processSegmentSelection` only clears them on
the success path. -/
theorem C5_counterexample :
    (processSegmentSelection ctx0 gBadSel).1.success = false ∧
    (processSegmentSelection ctx0 gBadSel).2.selectedVertices ≠ [] ∧
    (processSegmentSelection ctx0 gBadSel).2.segmentVertices ≠ [] := by
  decide

/-- C5 (amended): on a *successful* insertion, both the selection list and
the derived segment-vertex list are cleared; failed attempts leave the
selection list unchanged, as the concrete counterexample shows. -/
theorem C5_success_clears_selection (ctx : Ctx) (s : Graph)
    (h : (processSegmentSelection ctx s).1.success = true) :
    (processSegmentSelection ctx s).2.selectedVertices = [] ∧
    (processSegmentSelection ctx s).2.segmentVertices = [] := by
  obtain ⟨vs, es, per, sel, sv, mx⟩ := s
  rcases sel with _ | ⟨a, _ | ⟨b, _ | ⟨c, rest⟩⟩⟩
  · simp [processSegmentSelection] at h
  · simp [processSegmentSelection] at h
  case mk.cons.cons.nil =>
    rcases h1 : per.findIdx? (· == a) with _ | p1
    · simp [processSegmentSelection, h1] at h
    rcases h2 : per.findIdx? (· == b) with _ | p2
    · simp [processSegmentSelection, h1, h2] at h
    by_cases hlen : (getPeripherySegment per p1 p2).length < 2
    · simp [processSegmentSelection, h1, h2, hlen] at h
    rcases hfind : findNonIntersectingPosition ctx vs es
        (getPeripherySegment per p1 p2) with _ | pos
    · simp [processSegmentSelection, h1, h2, hlen, hfind] at h
    rcases hval : validateNewEdges vs es pos (getPeripherySegment per p1 p2)
        with _ | m
    · simp only [processSegmentSelection, h1, h2, if_neg hlen, hfind, hval,
        attemptCommit] at h ⊢
      split at h
      · simp at h
      · simp_all
    · simp [processSegmentSelection, h1, h2, hlen, hfind, hval] at h
  · simp [processSegmentSelection] at h

/-- Witness for C5 (amended theorem): the successful insertion on `gSuccess`
clears both lists. -/
theorem C5_witness :
    (processSegmentSelection ctx0 gSuccess).2.selectedVertices = [] ∧
    (processSegmentSelection ctx0 gSuccess).2.segmentVertices = [] :=
  C5_success_clears_selection ctx0 gSuccess (by decide)

/-- A state whose identifier counter has already advanced past the initial 3
(as after a successful insertion). -/
def gCounter4 : Graph :=
  { vertices := [], edges := [], periphery := [], selectedVertices := [],
    segmentVertices := [], maxVertexId := 4 }

/-- C9 (counterexample): the triangle reset is an operation that *decreases*
the maximum-identifier counter — from any state with `maxVertexId > 3` (for
instance after a successful insertion), `initializeTriangle` resets it to
`3`. -/
theorem C9_counterexample :
    (initializeTriangle gCounter4).maxVertexId < gCounter4.maxVertexId := by
  decide

/-- C9 (amended): across every *insertion* operation the counter is
monotonically non-decreasing — in particular a rolled-back insertion pops the
new vertex but keeps the incremented counter — and a successful insertion
assigns identifier `maxVertexId + 1`, strictly greater than every identifier
previously stored (hence gaps after a rollback); the triangle reset, however,
reinitializes the counter to 3, as the concrete counterexample shows. -/
theorem C9_maxVertexId_monotone (ctx : Ctx) (s : Graph) :
    s.maxVertexId ≤ (processSegmentSelection ctx s).2.maxVertexId ∧
    ((processSegmentSelection ctx s).1.success = true →
      (processSegmentSelection ctx s).2.maxVertexId = s.maxVertexId + 1 ∧
      ∀ v ∈ s.vertices, v.id ≤ s.maxVertexId →
        v.id < (processSegmentSelection ctx s).2.maxVertexId) := by
  obtain ⟨vs, es, per, sel, sv, mx⟩ := s
  rcases sel with _ | ⟨a, _ | ⟨b, _ | ⟨c, rest⟩⟩⟩
  · simp [processSegmentSelection]
  · simp [processSegmentSelection]
  case mk.cons.cons.nil =>
    rcases h1 : per.findIdx? (· == a) with _ | p1
    · simp [processSegmentSelection, h1]
    rcases h2 : per.findIdx? (· == b) with _ | p2
    · simp [processSegmentSelection, h1, h2]
    by_cases hlen : (getPeripherySegment per p1 p2).length < 2
    · simp [processSegmentSelection, h1, h2, hlen]
    rcases hfind : findNonIntersectingPosition ctx vs es
        (getPeripherySegment per p1 p2) with _ | pos
    · simp [processSegmentSelection, h1, h2, hlen, hfind]
    rcases hval : validateNewEdges vs es pos (getPeripherySegment per p1 p2)
        with _ | m
    · simp only [processSegmentSelection, h1, h2, if_neg hlen, hfind, hval,
        attemptCommit]
      split
      · constructor
        · simp [updatePeriphery, committedState, updatePeripheryAfterSegmentReplacement]
        · intro hsucc
          simp at hsucc
      · constructor
        · simp [committedState, updatePeripheryAfterSegmentReplacement]
        · intro _
          refine ⟨by simp [committedState, updatePeripheryAfterSegmentReplacement], ?_⟩
          intro v hv hid
          have : (committedState
              { vertices := vs, edges := es, periphery := per,
                selectedVertices := [a, b],
                segmentVertices := getPeripherySegment per p1 p2,
                maxVertexId := mx }
              (getPeripherySegment per p1 p2) p1 p2 pos).maxVertexId = mx + 1 := by
            simp [committedState, updatePeripheryAfterSegmentReplacement]
          simp only [this]
          omega
    · simp [processSegmentSelection, h1, h2, hlen, hfind, hval]
  · simp [processSegmentSelection]

/-- Witness for C9 (amended theorem) at `gSuccess`: the insertion succeeds,
the counter moves from 3 to 4, and the stored identifiers 1–3 are all smaller
than the new identifier. -/
theorem C9_witness :
    gSuccess.maxVertexId ≤ (processSegmentSelection ctx0 gSuccess).2.maxVertexId ∧
    (processSegmentSelection ctx0 gSuccess).2.maxVertexId = gSuccess.maxVertexId + 1 :=
  ⟨(C9_maxVertexId_monotone ctx0 gSuccess).1,
   ((C9_maxVertexId_monotone ctx0 gSuccess).2 (by decide)).1⟩

/-- C6 (code bug): on the successful insertion from `gSuccess` the result
message carries the new vertex's identifier `4`, but reports a segment size
of `0` instead of the actual segment size `2`: the source clears
`this.segmentVertices` (line 336) *before* interpolating
`this.segmentVertices.length` into the success message (line 340), so the
reported count is always `0`, contradicting the message's own wording
("connecting to segment of … vertices") and the spec's "report success with
… the segment size it connected to". -/
theorem C6_success_message_reports_zero :
    (processSegmentSelection ctx0 gSuccess).1 = ⟨true, Msg.added 4 0⟩ ∧
    (getPeripherySegment gSuccess.periphery 1 2).length = 2 ∧
    (0 : ℕ) ≠ 2 := by
  decide
